import Mathlib

/-!
Shallow embedding of the jayceon JSON parser (src/jayceon.c) and proofs
about it.

Modelling conventions, used uniformly below:

* The NUL-terminated C input string is a `List Char` that contains no NUL
  byte; the empty list stands for the cursor resting on the terminating NUL.
  Each `parse_*` function takes the cursor (the remaining input) and returns
  `none` for the C functions returning `NULL`, or `some (result, rest)`
  where `rest` is the advanced cursor.
* C doubles are modelled as exact rationals (`ℚ`); the floating-point
  literal `0.1` of the source becomes `1/10`.  No claim proved here depends
  on binary rounding, only on which arithmetic operations are performed.
* Growable buffers (`count`/`capacity`/`realloc`) are modelled as plain
  lists; allocation-failure paths of the source are not modelled (they
  only produce an extra `NULL` return).
* The C `for`/`while` loops that are not structurally recursive on the
  input are given an explicit fuel argument so that every definition
  computes by kernel reduction; the theorems are proved for every
  sufficiently large fuel, and entry points pass an amply large fuel.
-/

namespace Jayceon

/-- Byte-wise three-way comparison of NUL-free C strings, the behaviour of
`strcmp` from the C standard library on the keys handled by the parser:
the terminating NUL of the shorter string compares below every real byte. -/
def strcmp : List Char → List Char → Ordering
  | [], [] => .eq
  | [], _ :: _ => .lt
  | _ :: _, [] => .gt
  | a :: as, b :: bs => if a < b then .lt else if b < a then .gt else strcmp as bs

theorem strcmp_self (a : List Char) : strcmp a a = .eq := by
  induction a with
  | nil => rfl
  | cons c cs ih => simp [strcmp, ih]

theorem strcmp_eq_iff {a b : List Char} : strcmp a b = .eq ↔ a = b := by
  induction a generalizing b with
  | nil => cases b <;> simp [strcmp]
  | cons c cs ih =>
    cases b with
    | nil => simp [strcmp]
    | cons d ds =>
      by_cases h1 : c < d
      · have : c ≠ d := ne_of_lt h1
        simp [strcmp, h1, this]
      · by_cases h2 : d < c
        · have : c ≠ d := (ne_of_lt h2).symm
          simp [strcmp, h1, h2, this]
        · have hcd : c = d := le_antisymm (not_lt.mp h2) (not_lt.mp h1)
          simp [strcmp, h1, h2, hcd, ih]

theorem strcmp_gt_iff {a b : List Char} : strcmp a b = .gt ↔ strcmp b a = .lt := by
  induction a generalizing b with
  | nil => cases b <;> simp [strcmp]
  | cons c cs ih =>
    cases b with
    | nil => simp [strcmp]
    | cons d ds =>
      by_cases h1 : c < d
      · have h2 : ¬ d < c := lt_asymm h1
        simp [strcmp, h1, h2]
      · by_cases h2 : d < c
        · simp [strcmp, h1, h2]
        · simp [strcmp, h1, h2, ih]

theorem strcmp_lt_trans {a b c : List Char}
    (h1 : strcmp a b = .lt) (h2 : strcmp b c = .lt) : strcmp a c = .lt := by
  induction a generalizing b c with
  | nil =>
    cases c with
    | nil =>
      cases b with
      | nil => exact h2
      | cons y ys => simp [strcmp] at h2
    | cons z zs => simp [strcmp]
  | cons x xs ih =>
    cases b with
    | nil => simp [strcmp] at h1
    | cons y ys =>
      cases c with
      | nil => simp [strcmp] at h2
      | cons z zs =>
        simp only [strcmp] at h1 h2 ⊢
        rcases lt_trichotomy x y with hxy | hxy | hxy
        · rcases lt_trichotomy y z with hyz | hyz | hyz
          · simp [lt_trans hxy hyz]
          · subst hyz
            simp [hxy]
          · simp [lt_asymm hyz, hyz] at h2
        · subst hxy
          rcases lt_trichotomy x z with hxz | hxz | hxz
          · simp [hxz]
          · subst hxz
            simp only [lt_irrefl, if_false] at h1 h2 ⊢
            exact ih h1 h2
          · simp [lt_asymm hxz, hxz] at h2
        · simp [lt_asymm hxy, hxy] at h1

theorem strcmp_lt_ne {a b : List Char} (h : strcmp a b = .lt) : a ≠ b := by
  intro he
  subst he
  rw [strcmp_self] at h
  cases h

/-- The tagged union `JYValue` of jayceon.c: the `Type` tag together with
the active member of the union.  `JYArray` is its list of values, `JYObject`
its list of key/value pairs (keys are NUL-free C strings). -/
inductive JYValue : Type where
  | null : JYValue
  | bool (b : Bool) : JYValue
  | number (x : ℚ) : JYValue
  | string (s : List Char) : JYValue
  | array (vs : List JYValue) : JYValue
  | object (ps : List (List Char × JYValue)) : JYValue

/-- A JSON object is its list of pairs; `count` is the list length. -/
abbrev JYObject := List (List Char × JYValue)

/-- A JSON array is its list of values. -/
abbrev JYArray := List JYValue

/-- The key stored at slot `i` of the pair buffer, `pairs[i].key`.
Slots outside `count` hold arbitrary memory; the default is never relevant
under the bounds maintained by the search loops. -/
def keyAt (ps : JYObject) (i : Nat) : List Char :=
  (ps.getD i ([], JYValue.null)).1

/-- The sortedness invariant of objects stated in the spec: keys are
byte-wise strictly increasing, hence pairwise distinct. -/
def SortedKeys (ps : JYObject) : Prop :=
  ps.Pairwise (fun a b => strcmp a.1 b.1 = .lt)

instance (ps : JYObject) : Decidable (SortedKeys ps) := by
  unfold SortedKeys
  infer_instance

/-- The binary-search loop shared, line for line, by `jy_index_s`
(lines 164-176) and the insertion block of `parse_object` (lines 683-704):
`l`/`r`/`m` are the C `ptrdiff_t` variables, `.inl m` is the exit taken when
`strcmp` returns 0 at slot `m`, and `.inr l` is the fall-through exit with
the final insertion point `l`.  The loop runs at most `count + 1` times
(the window shrinks strictly), so the explicit fuel only makes the
recursion structural; all lemmas hold for any fuel above the window size.
During any reachable execution `0 ≤ l ≤ r` holds whenever `m` is computed,
where C truncating division and Lean flooring division agree. -/
def bsearchAux (ps : JYObject) (key : List Char) : Nat → Int → Int → Int ⊕ Int
  | 0, l, _ => .inr l
  | fuel + 1, l, r =>
    if l ≤ r then
      let m := (l + r) / 2
      match strcmp key (keyAt ps m.toNat) with
      | .gt => bsearchAux ps key fuel (m + 1) r
      | .lt => bsearchAux ps key fuel l (m - 1)
      | .eq => .inl m
    else
      .inr l

/-- The binary search over a whole pair buffer: `l = 0`, `r = count - 1`. -/
def bsearch (ps : JYObject) (key : List Char) : Int ⊕ Int :=
  bsearchAux ps key (ps.length + 1) 0 ((ps.length : Int) - 1)

/-- Embeds `jy_index_s` (lines 160-179): binary search for `key`, returning
the value of the matching pair, or `none` for the `NULL` return. -/
def jy_index_s (obj : JYObject) (key : List Char) : Option JYValue :=
  match bsearch obj key with
  | .inl m => some (obj.getD m.toNat ([], JYValue.null)).2
  | .inr _ => none

/-- Embeds `jy_index_i` (lines 181-186).  The C function returns `NULL`
when `obj->count < key` and otherwise the pointer `&obj->values[key]`;
the pointer is modelled as `some obj[key]?`, whose inner option is the
element the pointer designates when it is in bounds (`none` marks the
out-of-bounds pointer produced when `key = count`). -/
def jy_index_i (obj : JYArray) (key : Nat) : Option (Option JYValue) :=
  if obj.length < key then none else some obj[key]?

/-- Embeds `jy_index_i_obj` (lines 188-194).  `none` is the `NULL` return,
on which `out_key` is not written; `some p` is the branch that writes
`*out_key` and returns `&obj->pairs[index].value`, with `p` the designated
pair when the index is in bounds. -/
def jy_index_i_obj (obj : JYObject) (index : Nat) : Option (Option (List Char × JYValue)) :=
  if obj.length < index then none else some obj[index]?

/-- Embeds `jy_is_null` (lines 197-199): the `val->type == TYPE_NULL` test. -/
def jy_is_null (val : JYValue) : Bool :=
  match val with
  | .null => true
  | _ => false

/-- Embeds `jy_is_bool` (lines 201-207).  The C out-parameter is modelled by
passing its previous contents in and returning the pair
(return value, out-parameter contents after the call). -/
def jy_is_bool (val : JYValue) (out : Bool) : Bool × Bool :=
  match val with
  | .bool b => (true, b)
  | _ => (false, out)

/-- Embeds `jy_is_number` (lines 209-215), out-parameter as in `jy_is_bool`. -/
def jy_is_number (val : JYValue) (out : ℚ) : Bool × ℚ :=
  match val with
  | .number x => (true, x)
  | _ => (false, out)

/-- Embeds `jy_is_string` (lines 217-223), out-parameter as in `jy_is_bool`. -/
def jy_is_string (val : JYValue) (out : List Char) : Bool × List Char :=
  match val with
  | .string s => (true, s)
  | _ => (false, out)

/-- Embeds `jy_is_array` (lines 225-231), out-parameter as in `jy_is_bool`. -/
def jy_is_array (val : JYValue) (out : JYArray) : Bool × JYArray :=
  match val with
  | .array vs => (true, vs)
  | _ => (false, out)

/-- Embeds `jy_is_object` (lines 233-239), out-parameter as in `jy_is_bool`. -/
def jy_is_object (val : JYValue) (out : JYObject) : Bool × JYObject :=
  match val with
  | .object ps => (true, ps)
  | _ => (false, out)

/-- The C-locale `isspace` on the byte values the scanner meets. -/
def isSpaceC (c : Char) : Bool :=
  c = ' ' || c = '\t' || c = '\n' || c = '\x0b' || c = '\x0c' || c = '\r'

/-- Control state of the scanner `parse_space` (lines 321-353): `normal` is
the outer `while` loop, `line` the inner loop that discards a `//` comment,
`block` the inner loop that discards a `/* ... */` comment.  Comment support
is the default build (JAYCEON_NO_COMMENT_SUPPORT undefined). -/
inductive SpaceMode : Type where
  | normal : SpaceMode
  | line : SpaceMode
  | block : SpaceMode

/-- The scanner loops of `parse_space`, one constructor case per loop test.
In `line` mode the C inner loop stops at the newline and the outer loop
then consumes it as whitespace, which is the single `normal` step taken
here; an unterminated block comment consumes the whole input. -/
def space_loop : SpaceMode → List Char → List Char
  | _, [] => []
  | .normal, '/' :: '/' :: cs => space_loop .line cs
  | .normal, '/' :: '*' :: cs => space_loop .block cs
  | .normal, c :: cs => if isSpaceC c then space_loop .normal cs else c :: cs
  | .line, c :: cs => if c = '\n' then space_loop .normal cs else space_loop .line cs
  | .block, '*' :: '/' :: cs => space_loop .normal cs
  | .block, _ :: cs => space_loop .block cs

/-- Embeds `parse_space` (lines 321-353): skips whitespace and comments. -/
def parse_space (s : List Char) : List Char :=
  space_loop .normal s

/-- Embeds `parse_null` (lines 355-363): the four bytes `null` must match. -/
def parse_null : List Char → Option (List Char)
  | 'n' :: 'u' :: 'l' :: 'l' :: cs => some cs
  | _ => none

/-- Embeds `parse_bool` (lines 365-382): the word is chosen by the first
byte (`true` when it is `t`, `false` otherwise) and then matched in full. -/
def parse_bool : List Char → Option (Bool × List Char)
  | 't' :: 'r' :: 'u' :: 'e' :: cs => some (true, cs)
  | 'f' :: 'a' :: 'l' :: 's' :: 'e' :: cs => some (false, cs)
  | _ => none

/-- The digit test `*string >= '0' && *string <= '9'` of `parse_number`. -/
def isDigitC (c : Char) : Bool :=
  '0' ≤ c && c ≤ '9'

/-- The value of a digit byte, `*string - '0'`. -/
def digitVal (c : Char) : Nat :=
  c.toNat - '0'.toNat

/-- Embeds `pow10` (lines 120-133).  An exponent of magnitude above 30
short-circuits to exactly `0.0`; otherwise the first loop multiplies by
`10.0` once per unit of a positive exponent and the second multiplies by
the literal `0.1` (here the exact `1/10`) once per unit of a negative one. -/
def pow10 (x : ℚ) (y : Int) : ℚ :=
  if 30 < y.natAbs then 0
  else
    (List.range (-y).toNat).foldl (fun a _ => a * (1 / 10))
      ((List.range y.toNat).foldl (fun a _ => a * 10) x)

/-- Embeds `parse_number` (lines 384-464).  The accumulator runs of the C
code are the folds: the integer part folds `val = val * 10 + digit` over the
digit run; the fraction folds the pair (value, running divisor `frac`) with
`frac` scaled by `0.1` before each add; the exponent folds
`exp = exp * 10 + digit` (the C `int`, modelled unbounded) and is applied
through `pow10`.  The zero test `val == 0.0` after the integer digit run is
kept exactly as in the source. -/
def parse_number (s : List Char) : Option (ℚ × List Char) :=
  let signed := s.head? = some '-'
  let s1 := if signed then s.tail else s
  let intres : Option (ℚ × List Char) :=
    if s1.head? = some '0' then
      some (0, s1.tail)
    else
      let val : ℚ := (s1.takeWhile isDigitC).foldl
        (fun v c => v * 10 + (digitVal c : ℚ)) 0
      if val = 0 then none else some (val, s1.dropWhile isDigitC)
  match intres with
  | none => none
  | some (val0, s2) =>
    let fracres : Option (ℚ × List Char) :=
      if s2.head? = some '.' then
        match s2.tail with
        | c :: s3 =>
          if isDigitC c then
            some (((( c :: s3).takeWhile isDigitC).foldl
                (fun (p : ℚ × ℚ) d =>
                  (p.1 + (digitVal d : ℚ) * (p.2 * (1 / 10)), p.2 * (1 / 10)))
                (val0, 1)).1,
              (c :: s3).dropWhile isDigitC)
          else none
        | [] => none
      else some (val0, s2)
    match fracres with
    | none => none
    | some (val1, s4) =>
      let expres : Option (ℚ × List Char) :=
        if s4.head? = some 'e' ∨ s4.head? = some 'E' then
          match s4.tail with
          | c :: s5 =>
            if c = '+' ∨ c = '-' then
              match s5 with
              | d :: _ =>
                if isDigitC d then
                  let e : Nat := (s5.takeWhile isDigitC).foldl
                    (fun a dc => a * 10 + digitVal dc) 0
                  some (pow10 val1 (if c = '-' then -(e : Int) else (e : Int)),
                    s5.dropWhile isDigitC)
                else none
              | [] => none
            else none
          | [] => none
        else some (val1, s4)
      match expres with
      | none => none
      | some (val2, s6) => some (if signed then -val2 else val2, s6)

/-- The body of the string-building loop of `parse_string` (lines 484-531),
one recursive call per `++string`.  The accumulator is the growable buffer
`val` in reverse; reallocation failure is not modelled.  The escape ladder
is the `if`/`else if` chain of lines 493-508 in source order. -/
def string_loop : List Char → List Char → Option (List Char × List Char)
  | [], _ => none
  | c :: cs, acc =>
    if c = '\"' then some (acc.reverse, cs)
    else if c = '\n' then none
    else if c = '\\' then
      match cs with
      | [] => none
      | e :: cs2 =>
        if e = 'n' then string_loop cs2 ('\n' :: acc)
        else if e = 'r' then string_loop cs2 ('\r' :: acc)
        else if e = 'b' then string_loop cs2 ('\x08' :: acc)
        else if e = 'f' then string_loop cs2 ('\x0c' :: acc)
        else if e = 't' then string_loop cs2 ('\t' :: acc)
        else if e = '\"' ∨ e = '\\' ∨ e = '/' then string_loop cs2 (e :: acc)
        else none
    else string_loop cs (c :: acc)

/-- Embeds `parse_string` (lines 470-561): an opening quote followed by the
building loop. -/
def parse_string (s : List Char) : Option (List Char × List Char) :=
  match s with
  | '\"' :: cs => string_loop cs []
  | _ => none

/-- The insertion block of `parse_object` (lines 683-710): the duplicate
check by binary search, then the `memmove` shift that opens slot `l` and
the writes of `pairs[l].key`/`pairs[l].value`.  A duplicate key is the
hard-failure return of line 702. -/
def objInsert (ps : JYObject) (key : List Char) (val : JYValue) : Option JYObject :=
  match bsearch ps key with
  | .inl _ => none
  | .inr l => some (ps.take l.toNat ++ (key, val) :: ps.drop l.toNat)

mutual

/-- Embeds `parse_value` (lines 727-744): the variant recognizers tried in
source order, committing to the first success.  Recursion into the
structural parsers spends one unit of fuel. -/
def parse_value : Nat → List Char → Option (JYValue × List Char)
  | 0, _ => none
  | fuel + 1, s =>
    match parse_null s with
    | some rest => some (.null, rest)
    | none =>
      match parse_bool s with
      | some (b, rest) => some (.bool b, rest)
      | none =>
        match parse_number s with
        | some (x, rest) => some (.number x, rest)
        | none =>
          match parse_string s with
          | some (str, rest) => some (.string str, rest)
          | none =>
            match parse_array fuel s with
            | some (vs, rest) => some (.array vs, rest)
            | none =>
              match parse_object fuel s with
              | some (ps, rest) => some (.object ps, rest)
              | none => none

/-- Embeds `parse_array` (lines 563-620) up to its element loop: the
opening bracket, the initial scan, and the end-of-input test of line 577. -/
def parse_array : Nat → List Char → Option (JYArray × List Char)
  | 0, _ => none
  | fuel + 1, s =>
    match s with
    | '[' :: s1 =>
      match parse_space s1 with
      | [] => none
      | s2 => parse_array_loop fuel s2 []
    | _ => none

/-- The element loop of `parse_array` (lines 581-619), entered with the
cursor already past insignificant input.  Each iteration checks the loop
condition `*string != ']'`, parses one value, appends it, and consumes a
comma or stops before the bracket; the closing bracket is consumed at exit
(line 619). -/
def parse_array_loop : Nat → List Char → JYArray → Option (JYArray × List Char)
  | 0, _, _ => none
  | fuel + 1, s, acc =>
    match s with
    | ']' :: s1 => some (acc, s1)
    | _ =>
      match parse_value fuel s with
      | none => none
      | some (v, s1) =>
        match parse_space s1 with
        | ',' :: s2 => parse_array_loop fuel (parse_space s2) (acc ++ [v])
        | ']' :: s2 => some (acc ++ [v], s2)
        | _ => none

/-- Embeds `parse_object` (lines 622-725) up to its pair loop: the opening
brace, the initial scan, and the end-of-input test of line 635. -/
def parse_object : Nat → List Char → Option (JYObject × List Char)
  | 0, _ => none
  | fuel + 1, s =>
    match s with
    | '{' :: s1 =>
      match parse_space s1 with
      | [] => none
      | s2 => parse_object_loop fuel s2 []
    | _ => none

/-- The pair loop of `parse_object` (lines 639-724): each iteration checks
the loop condition `*string != '}'`, parses a key string, the colon, a
value, performs the sorted insertion with duplicate detection, and consumes
a comma or stops before the brace; the closing brace is consumed at exit
(line 724). -/
def parse_object_loop : Nat → List Char → JYObject → Option (JYObject × List Char)
  | 0, _, _ => none
  | fuel + 1, s, ps =>
    match s with
    | '}' :: s1 => some (ps, s1)
    | _ =>
      match parse_string s with
      | none => none
      | some (key, s1) =>
        match parse_space s1 with
        | ':' :: s2 =>
          match parse_value fuel (parse_space s2) with
          | none => none
          | some (v, s3) =>
            match objInsert ps key v with
            | none => none
            | some ps2 =>
              match parse_space s3 with
              | ',' :: s4 => parse_object_loop fuel (parse_space s4) ps2
              | '}' :: s4 => some (ps2, s4)
              | _ => none
        | _ => none

end

/-- Embeds `jy_parse` (lines 135-149): the entry point hands the whole
input, from byte 0, directly to `parse_object` and succeeds exactly when it
does; the document is its root object and the rest of the input is
discarded unchecked.  The fuel `length + 1` dominates every loop iteration
and nesting level, each of which consumes input.  Allocation failure of the
document header is not modelled. -/
def jy_parse (s : List Char) : Option JYObject :=
  (parse_object (s.length + 1) s).map Prod.fst

theorem keyAt_eq_get {ps : JYObject} {i : Nat} (h : i < ps.length) :
    keyAt ps i = (ps.get ⟨i, h⟩).1 := by
  unfold keyAt
  rw [List.getD_eq_get]

theorem sorted_keyAt_lt {ps : JYObject} (hs : SortedKeys ps) {i j : Nat}
    (hij : i < j) (hj : j < ps.length) :
    strcmp (keyAt ps i) (keyAt ps j) = .lt := by
  have hi : i < ps.length := lt_trans hij hj
  rw [keyAt_eq_get hi, keyAt_eq_get hj]
  exact List.pairwise_iff_get.mp hs ⟨i, hi⟩ ⟨j, hj⟩ hij

/-- Positive exit of the search loop: the hit index is in bounds and its
key compares equal; this needs no sortedness. -/
theorem bsearchAux_inl {ps : JYObject} {key : List Char} :
    ∀ (fuel : Nat) (l r m : Int), (r + 1 - l).toNat < fuel → 0 ≤ l →
    r < (ps.length : Int) →
    bsearchAux ps key fuel l r = .inl m →
    0 ≤ m ∧ m < (ps.length : Int) ∧ strcmp key (keyAt ps m.toNat) = .eq := by
  intro fuel
  induction fuel with
  | zero =>
    intro l r m hf
    omega
  | succ fuel ih =>
    intro l r m hf h0 hr h
    simp only [bsearchAux] at h
    by_cases hlr : l ≤ r
    · rw [if_pos hlr] at h
      have hml : l ≤ (l + r) / 2 := by omega
      have hmr : (l + r) / 2 ≤ r := by omega
      rcases hcmp : strcmp key (keyAt ps ((l + r) / 2).toNat) with _ | _ | _ <;>
        rw [hcmp] at h
      · exact ih l ((l + r) / 2 - 1) m (by omega) h0 (by omega) h
      · injection h with h
        subst h
        exact ⟨by omega, by omega, hcmp⟩
      · exact ih ((l + r) / 2 + 1) r m (by omega) (by omega) hr h
    · rw [if_neg hlr] at h
      cases h

/-- Negative exit of the search loop: on a sorted buffer, the final `l` is
the insertion point, splitting the indices into those whose keys lie
strictly below the probe and those strictly above it.  The two window
premises express what holds of the initial full window and are maintained
by the halving steps. -/
theorem bsearchAux_inr {ps : JYObject} {key : List Char} (hs : SortedKeys ps) :
    ∀ (fuel : Nat) (l r j : Int), (r + 1 - l).toNat < fuel → 0 ≤ l →
    l ≤ (ps.length : Int) → r < (ps.length : Int) →
    (∀ i : Nat, (i : Int) < l → strcmp (keyAt ps i) key = .lt) →
    (∀ i : Nat, r < (i : Int) → i < ps.length → strcmp key (keyAt ps i) = .lt) →
    bsearchAux ps key fuel l r = .inr j →
    0 ≤ j ∧ j ≤ (ps.length : Int) ∧
    (∀ i : Nat, (i : Int) < j → strcmp (keyAt ps i) key = .lt) ∧
    (∀ i : Nat, j ≤ (i : Int) → i < ps.length → strcmp key (keyAt ps i) = .lt) := by
  intro fuel
  induction fuel with
  | zero =>
    intro l r j hf
    omega
  | succ fuel ih =>
    intro l r j hf h0 hln hr hL hR h
    simp only [bsearchAux] at h
    by_cases hlr : l ≤ r
    · rw [if_pos hlr] at h
      have hml : l ≤ (l + r) / 2 := by omega
      have hmr : (l + r) / 2 ≤ r := by omega
      have hmn : ((l + r) / 2).toNat < ps.length := by omega
      rcases hcmp : strcmp key (keyAt ps ((l + r) / 2).toNat) with _ | _ | _ <;>
        rw [hcmp] at h
      · refine ih l ((l + r) / 2 - 1) j (by omega) h0 hln (by omega) hL ?_ h
        intro i hi hin
        by_cases hir : r < (i : Int)
        · exact hR i hir hin
        · rcases eq_or_lt_of_le (show ((l + r) / 2 : Int) ≤ (i : Int) by omega) with he | hlt
          · have : i = ((l + r) / 2).toNat := by omega
            rw [← this] at hcmp
            exact hcmp
          · exact strcmp_lt_trans hcmp
              (sorted_keyAt_lt hs (by omega : ((l + r) / 2).toNat < i) hin)
      · cases h
      · refine ih ((l + r) / 2 + 1) r j (by omega) (by omega) (by omega) hr ?_ hR h
        intro i hi
        have hm : strcmp (keyAt ps ((l + r) / 2).toNat) key = .lt :=
          strcmp_gt_iff.mp hcmp
        by_cases hil : (i : Int) < l
        · exact hL i hil
        · rcases eq_or_lt_of_le (show (i : Int) ≤ ((l + r) / 2 : Int) by omega) with he | hlt
          · have : i = ((l + r) / 2).toNat := by omega
            rw [this]
            exact hm
          · exact strcmp_lt_trans
              (sorted_keyAt_lt hs (by omega : i < ((l + r) / 2).toNat) hmn) hm
    · rw [if_neg hlr] at h
      cases h
      refine ⟨h0, hln, hL, ?_⟩
      intro i hi hin
      exact hR i (by omega) hin

/-- The exits of `bsearch` at the full window `l = 0`, `r = count - 1`. -/
theorem bsearch_inl {ps : JYObject} {key : List Char} {m : Int}
    (h : bsearch ps key = .inl m) :
    0 ≤ m ∧ m < (ps.length : Int) ∧ keyAt ps m.toNat = key := by
  have := bsearchAux_inl (ps.length + 1) 0
    ((ps.length : Int) - 1) m (by omega) (by omega) (by omega) h
  exact ⟨this.1, this.2.1, (strcmp_eq_iff.mp this.2.2).symm⟩

theorem bsearch_inr {ps : JYObject} {key : List Char} {j : Int} (hs : SortedKeys ps)
    (h : bsearch ps key = .inr j) :
    0 ≤ j ∧ j ≤ (ps.length : Int) ∧
    (∀ i : Nat, (i : Int) < j → strcmp (keyAt ps i) key = .lt) ∧
    (∀ i : Nat, j ≤ (i : Int) → i < ps.length → strcmp key (keyAt ps i) = .lt) := by
  refine bsearchAux_inr hs (ps.length + 1) 0 ((ps.length : Int) - 1) j
    (by omega) (by omega) (by omega) (by omega) ?_ ?_ h
  · intro i hi
    omega
  · intro i hi hin
    omega

/-- On a sorted buffer the negative exit really means the key is absent. -/
theorem bsearch_inr_not_mem {ps : JYObject} {key : List Char} {j : Int}
    (hs : SortedKeys ps) (h : bsearch ps key = .inr j) :
    key ∉ ps.map Prod.fst := by
  intro hmem
  obtain ⟨⟨i, hi⟩, hget⟩ := List.mem_iff_get.mp hmem
  rw [List.get_map] at hget
  have hk : keyAt ps i = key := by
    rw [keyAt_eq_get (by simpa using hi)]
    simpa using hget
  obtain ⟨-, -, hbelow, habove⟩ := bsearch_inr hs h
  have hi2 : i < ps.length := by simpa using hi
  by_cases hij : (i : Int) < j
  · exact strcmp_lt_ne (hbelow i hij) hk
  · exact strcmp_lt_ne (habove i (by omega) hi2) hk.symm

/-- Sorted insertion as performed by the insertion block of `parse_object`
keeps the buffer strictly sorted, for every buffer, key and value. -/
theorem objInsert_sorted {ps : JYObject} {key : List Char} {v : JYValue}
    {ps2 : JYObject} (hs : SortedKeys ps) (h : objInsert ps key v = some ps2) :
    SortedKeys ps2 := by
  unfold objInsert at h
  rcases hb : bsearch ps key with m | j <;> rw [hb] at h
  · cases h
  · injection h with h
    subst h
    obtain ⟨hj0, hjn, hbelow, habove⟩ := bsearch_inr hs hb
    have hjle : j.toNat ≤ ps.length := by omega
    rw [SortedKeys, List.pairwise_append]
    refine ⟨hs.take, ?_, ?_⟩
    · refine List.Pairwise.cons ?_ hs.drop
      intro b hbm
      obtain ⟨i, hi, hget⟩ := List.mem_iff_getElem.mp hbm
      have hlen : i < ps.length - j.toNat := by simpa using hi
      have hbd : j.toNat + i < ps.length := by omega
      have : (ps.drop j.toNat)[i] = ps[j.toNat + i] :=
        List.getElem_drop ps
      rw [this] at hget
      have hkey : strcmp key (keyAt ps (j.toNat + i)) = .lt :=
        habove (j.toNat + i) (by omega) (by omega)
      rw [keyAt_eq_get (by omega)] at hkey
      simp only [List.get_eq_getElem] at hkey
      rw [hget] at hkey
      exact hkey
    · intro a ham b hbm
      obtain ⟨i1, hi1, hget1⟩ := List.mem_iff_getElem.mp ham
      have hlen1 : i1 < j.toNat ∧ i1 < ps.length := by
        simp [List.length_take] at hi1
        omega
      have hbd1 : i1 < ps.length := hlen1.2
      have : (ps.take j.toNat)[i1] = ps[i1] := List.getElem_take ps
      rw [this] at hget1
      rcases List.mem_cons.mp hbm with rfl | hbm2
      · have hkey : strcmp (keyAt ps i1) key = .lt := hbelow i1 (by omega)
        rw [keyAt_eq_get (by omega)] at hkey
        simp only [List.get_eq_getElem] at hkey
        rw [hget1] at hkey
        exact hkey
      · obtain ⟨i2, hi2, hget2⟩ := List.mem_iff_getElem.mp hbm2
        have hlen2 : i2 < ps.length - j.toNat := by simpa using hi2
        have hbd2 : j.toNat + i2 < ps.length := by omega
        have : (ps.drop j.toNat)[i2] = ps[j.toNat + i2] :=
          List.getElem_drop ps
        rw [this] at hget2
        have hkey := List.pairwise_iff_get.mp hs ⟨i1, by omega⟩
          ⟨j.toNat + i2, by omega⟩ (by simp; omega)
        simp only [List.get_eq_getElem] at hkey
        rw [hget1, hget2] at hkey
        exact hkey

/-- A key already present in a sorted buffer makes the insertion block of
`parse_object` fail: this is the duplicate-key exit of line 702. -/
theorem objInsert_dup {ps : JYObject} {key : List Char} {v : JYValue}
    (hs : SortedKeys ps) (hmem : key ∈ ps.map Prod.fst) :
    objInsert ps key v = none := by
  unfold objInsert
  rcases hb : bsearch ps key with m | j
  · rfl
  · exact absurd hmem (bsearch_inr_not_mem hs hb)

/-- On a sorted buffer, `jy_index_s` finds the value of every stored pair. -/
theorem jy_index_s_mem {ps : JYObject} {key : List Char} {v : JYValue}
    (hs : SortedKeys ps) (hv : (key, v) ∈ ps) :
    jy_index_s ps key = some v := by
  unfold jy_index_s
  obtain ⟨i, hi, hget⟩ := List.mem_iff_getElem.mp hv
  have hki : keyAt ps i = key := by
    rw [keyAt_eq_get hi]
    simp [hget]
  rcases hb : bsearch ps key with m | j
  · obtain ⟨hm0, hmn, hkm⟩ := bsearch_inl hb
    have him : i = m.toNat := by
      by_contra hne
      rcases Nat.lt_or_ge i m.toNat with hlt | hge
      · have := sorted_keyAt_lt hs hlt (by omega)
        rw [hki, hkm] at this
        exact absurd (strcmp_self key) (by rw [this]; intro hc; cases hc)
      · have hgt : m.toNat < i := by omega
        have := sorted_keyAt_lt hs hgt hi
        rw [hki, hkm] at this
        exact absurd (strcmp_self key) (by rw [this]; intro hc; cases hc)
    subst him
    show some (ps.getD m.toNat ([], JYValue.null)).2 = some v
    rw [List.getD_eq_getElem _ _ (show m.toNat < ps.length by omega), hget]
  · exact absurd (List.mem_map_of_mem Prod.fst hv) (bsearch_inr_not_mem hs hb)

/-- On a sorted buffer, `jy_index_s` returns the `NULL` marker exactly for
absent keys. -/
theorem jy_index_s_not_mem {ps : JYObject} {key : List Char}
    (hmem : key ∉ ps.map Prod.fst) :
    jy_index_s ps key = none := by
  unfold jy_index_s
  rcases hb : bsearch ps key with m | j
  · obtain ⟨hm0, hmn, hkm⟩ := bsearch_inl hb
    exfalso
    apply hmem
    have : keyAt ps m.toNat ∈ ps.map Prod.fst := by
      rw [keyAt_eq_get (by omega)]
      exact List.mem_map_of_mem Prod.fst (ps.get_mem m.toNat (by omega))
    rw [hkm] at this
    exact this
  · rfl

/-- Unfolding equation for one iteration of the pair loop. -/
theorem parse_object_loop_succ (fuel : Nat) (s : List Char) (ps : JYObject) :
    parse_object_loop (fuel + 1) s ps =
      match s with
      | '}' :: s1 => some (ps, s1)
      | _ =>
        match parse_string s with
        | none => none
        | some (key, s1) =>
          match parse_space s1 with
          | ':' :: s2 =>
            match parse_value fuel (parse_space s2) with
            | none => none
            | some (v, s3) =>
              match objInsert ps key v with
              | none => none
              | some ps2 =>
                match parse_space s3 with
                | ',' :: s4 => parse_object_loop fuel (parse_space s4) ps2
                | '}' :: s4 => some (ps2, s4)
                | _ => none
          | _ => none := rfl

/-- Unfolding equation for `parse_object` at positive fuel. -/
theorem parse_object_succ (fuel : Nat) (s : List Char) :
    parse_object (fuel + 1) s =
      match s with
      | '{' :: s1 =>
        match parse_space s1 with
        | [] => none
        | s2 => parse_object_loop fuel s2 []
      | _ => none := rfl

/-- The pair loop of `parse_object` only ever extends its buffer through
the sorted insertion, so sortedness of the buffer is an invariant of the
loop and holds for every buffer the loop returns. -/
theorem parse_object_loop_sorted :
    ∀ (fuel : Nat) (s : List Char) (ps obj : JYObject) (rest : List Char),
    SortedKeys ps → parse_object_loop fuel s ps = some (obj, rest) →
    SortedKeys obj := by
  intro fuel
  induction fuel with
  | zero =>
    intro s ps obj rest hs h
    simp [parse_object_loop] at h
  | succ fuel ih =>
    intro s ps obj rest hs h
    rw [parse_object_loop_succ] at h
    split at h
    · injection h with h
      injection h with h1 h2
      rw [← h1]
      exact hs
    · split at h
      · cases h
      · split at h
        · split at h
          · cases h
          · split at h
            · cases h
            · rename_i ps2 hins
              split at h
              · exact ih _ ps2 obj rest (objInsert_sorted hs hins) h
              · injection h with h
                injection h with h1 h2
                rw [← h1]
                exact objInsert_sorted hs hins
              · cases h
        · cases h

/-- Every object handed back by `parse_object` satisfies the sortedness
invariant; this covers each object a parse produces, since every nested
object is itself the result of a recursive `parse_object` call. -/
theorem parse_object_sorted {fuel : Nat} {s : List Char} {obj : JYObject}
    {rest : List Char} (h : parse_object fuel s = some (obj, rest)) :
    SortedKeys obj := by
  match fuel with
  | 0 => simp [parse_object] at h
  | fuel + 1 =>
    rw [parse_object_succ] at h
    split at h
    · split at h
      · cases h
      · exact parse_object_loop_sorted fuel _ [] obj rest List.Pairwise.nil h
    · cases h

/-- C1: the claim says `jy_index_i` and `jy_index_i_obj` return `NULL` for
every index at or above the count, but their guard is `count < index`, an
off-by-one that lets `index = count` through: on a one-element array,
index 1 takes the non-`NULL` branch and yields the out-of-bounds pointer
`&values[1]` (first two conjuncts, the failing inputs), while only indices
strictly above the count are rejected (last two conjuncts). -/
theorem C1_index_bound_bug :
    jy_index_i [JYValue.null] 1 = some none ∧
    jy_index_i_obj [(['a'], JYValue.null)] 1 = some none ∧
    jy_index_i ([] : JYArray) 0 = some none ∧
    jy_index_i [JYValue.null] 2 = none ∧
    jy_index_i_obj [(['a'], JYValue.null)] 2 = none :=
  ⟨rfl, rfl, rfl, rfl, rfl⟩

/-- C2 (counterexample): the claim states that `parse_number` fails on the
input `01`; in fact it succeeds, consuming only the leading zero. -/
theorem C2_counterexample : parse_number ['0', '1'] ≠ none := by
  rw [show parse_number ['0', '1'] = some (0, ['1']) from rfl]
  simp

/-- C2 (amended): after a leading `0` the integer part stops, so on `0`
followed by any digit `parse_number` succeeds with value `0.0` leaving that
digit unconsumed, and `parse_value` commits to that number; the value `01`
is still rejected at the enclosing grammar level, as in `{"a":01}`, because
the leftover digit is not a valid continuation there. -/
theorem C2_leading_zero_amended :
    (∀ (c : Char) (cs : List Char), isDigitC c = true →
      parse_number ('0' :: c :: cs) = some (0, c :: cs)) ∧
    (∀ (fuel : Nat) (c : Char) (cs : List Char), isDigitC c = true →
      parse_value (fuel + 1) ('0' :: c :: cs) = some (.number 0, c :: cs)) ∧
    jy_parse ("\x7b\"a\":01\x7d".toList) = none := by
  have hnum : ∀ (c : Char) (cs : List Char), isDigitC c = true →
      parse_number ('0' :: c :: cs) = some (0, c :: cs) := by
    intro c cs hc
    have hdot : ¬ (c = '.') := by
      intro h
      subst h
      exact absurd hc (by decide)
    have he : ¬ (c = 'e') := by
      intro h
      subst h
      exact absurd hc (by decide)
    have hE : ¬ (c = 'E') := by
      intro h
      subst h
      exact absurd hc (by decide)
    simp [parse_number, hdot, he, hE]
  refine ⟨hnum, ?_, by rfl⟩
  intro fuel c cs hc
  simp [parse_value, parse_null, parse_bool, hnum c cs hc]

/-- C2 witness: the amended statement applied to the input `01`. -/
theorem C2_leading_zero_amended_witness :
    parse_number ['0', '1'] = some (0, ['1']) ∧
    parse_value 5 ['0', '1'] = some (.number 0, ['1']) :=
  ⟨C2_leading_zero_amended.1 '1' [] rfl, C2_leading_zero_amended.2.1 4 '1' [] rfl⟩

/-- C3: `jy_parse` succeeds exactly when `parse_object` accepts the input
from byte 0 through its closing brace; trailing bytes after that brace are
not examined, while empty input, a bare array, a bare scalar and a bare
string all fail at the top level even though the value dispatcher itself
accepts the array. -/
theorem C3_top_level_object :
    (∀ s : List Char, (jy_parse s).isSome ↔ (parse_object (s.length + 1) s).isSome) ∧
    jy_parse ("\x7b\x7d garbage".toList) = some [] ∧
    jy_parse ("\x7b\"a\":1\x7d xyz".toList) = some [(['a'], JYValue.number 1)] ∧
    jy_parse [] = none ∧
    jy_parse ("[1,2,3]".toList) = none ∧
    (parse_value 10 ("[1,2,3]".toList)).isSome = true ∧
    jy_parse ("1".toList) = none ∧
    jy_parse ("\"s\"".toList) = none ∧
    jy_parse ("null".toList) = none := by
  refine ⟨?_, by rfl, by with_unfolding_all rfl, by rfl, by rfl,
    by with_unfolding_all rfl, by rfl, by rfl, by rfl⟩
  intro s
  simp [jy_parse]

/-- C3 witness: the equivalence applied to the two-byte input of an empty
object. -/
theorem C3_top_level_object_witness :
    (jy_parse ("\x7b\x7d".toList)).isSome ↔
      (parse_object (("\x7b\x7d".toList).length + 1) ("\x7b\x7d".toList)).isSome :=
  C3_top_level_object.1 ("\x7b\x7d".toList)

/-- C4: first, the insertion step of `parse_object` keeps the pair buffer
strictly sorted for every buffer, key and value, so any number of
insertions in any order preserves the invariant; second, every object a
successful `parse_object` returns (each nested object of a parse is the
result of such a call) satisfies it, so enumerating pairs by index yields a
strictly increasing key sequence. -/
theorem C4_sorted_invariant :
    (∀ (ps : JYObject) (key : List Char) (v : JYValue) (ps2 : JYObject),
      SortedKeys ps → objInsert ps key v = some ps2 → SortedKeys ps2) ∧
    (∀ (fuel : Nat) (s : List Char) (obj : JYObject) (rest : List Char),
      parse_object fuel s = some (obj, rest) → SortedKeys obj) :=
  ⟨fun _ _ _ _ hs h => objInsert_sorted hs h,
   fun _ _ _ _ h => parse_object_sorted h⟩

/-- C4 witness: inserting a smaller key in front of a sorted singleton
stays sorted, and a parsed two-key object is sorted. -/
theorem C4_sorted_invariant_witness :
    SortedKeys [(['a'], JYValue.null), (['b'], JYValue.null)] ∧
    SortedKeys [(['a'], JYValue.bool true), (['b'], JYValue.bool false)] :=
  ⟨C4_sorted_invariant.1 [(['b'], JYValue.null)] ['a'] JYValue.null
      [(['a'], JYValue.null), (['b'], JYValue.null)] (by decide) (by rfl),
   C4_sorted_invariant.2 16 ("\x7b\"b\":false,\"a\":true\x7d".toList)
      [(['a'], JYValue.bool true), (['b'], JYValue.bool false)] [] (by rfl)⟩

/-- C5: a key byte-wise equal to one already inserted makes the insertion
step fail on any sorted buffer, and the parse of an object literal with a
repeated key returns failure, so the caller observes no object at all. -/
theorem C5_duplicate_key :
    (∀ (ps : JYObject) (key : List Char) (v : JYValue),
      SortedKeys ps → key ∈ ps.map Prod.fst → objInsert ps key v = none) ∧
    jy_parse ("\x7b\"a\":1,\"a\":2\x7d".toList) = none := by
  refine ⟨fun _ _ _ hs hm => objInsert_dup hs hm, by with_unfolding_all rfl⟩

/-- C5 witness: re-inserting the key of a sorted singleton fails. -/
theorem C5_duplicate_key_witness :
    objInsert [(['a'], JYValue.number 1)] ['a'] (JYValue.number 2) = none :=
  C5_duplicate_key.1 [(['a'], JYValue.number 1)] ['a'] (JYValue.number 2)
    (by simp [SortedKeys]) (by simp)

theorem foldl_mul_ten (x : ℚ) (n : Nat) :
    (List.range n).foldl (fun a _ => a * 10) x = x * 10 ^ n := by
  induction n generalizing x with
  | zero => simp
  | succ n ih =>
    rw [List.range_succ, List.foldl_append, ih]
    simp [pow_succ]
    ring

theorem foldl_mul_tenth (x : ℚ) (n : Nat) :
    (List.range n).foldl (fun a _ => a * (1 / 10)) x = x * (1 / 10) ^ n := by
  induction n generalizing x with
  | zero => simp
  | succ n ih =>
    rw [List.range_succ, List.foldl_append, ih]
    simp [pow_succ]
    ring

/-- C6: an exponent of magnitude above 30 makes `pow10` return exactly
zero, so the number `1e+40` parses successfully to `0.0`; an exponent of
magnitude at most 30 is applied by the multiplication loops, whose result
is exactly scaling by the corresponding power of ten. -/
theorem C6_exponent_clamp :
    (∀ (x : ℚ) (y : Int), 30 < y.natAbs → pow10 x y = 0) ∧
    (∀ (x : ℚ) (y : Int), y.natAbs ≤ 30 → pow10 x y = x * (10 : ℚ) ^ y) ∧
    parse_number ("1e+40".toList) = some (0, []) ∧
    parse_number ("1e-31".toList) = some (0, []) := by
  refine ⟨?_, ?_, by with_unfolding_all rfl, by with_unfolding_all rfl⟩
  · intro x y hy
    rw [pow10, if_pos hy]
  · intro x y hy
    rw [pow10, if_neg (by omega)]
    rw [foldl_mul_ten, foldl_mul_tenth]
    rcases Int.le_or_lt 0 y with h0 | h0
    · rw [show (-y).toNat = 0 from by omega]
      simp only [pow_zero, mul_one]
      rw [← zpow_natCast, Int.toNat_of_nonneg h0]
    · rw [show y.toNat = 0 from by omega]
      simp only [pow_zero, mul_one]
      rw [one_div, inv_pow, ← zpow_natCast, ← zpow_neg]
      congr 1
      congr 1
      omega

/-- C6 witness: the clamp at exponent 40 and the exact scaling at
exponent -2. -/
theorem C6_exponent_clamp_witness :
    pow10 2 40 = 0 ∧ pow10 3 (-2) = 3 * (10 : ℚ) ^ (-2 : Int) :=
  ⟨C6_exponent_clamp.1 2 40 (by decide), C6_exponent_clamp.2.1 3 (-2) (by decide)⟩

/-- C7: inside a string literal, end of input or a bare newline before the
closing quote is a hard failure; a backslash followed by `n r b f t` stores
the matching control character, a backslash followed by a quote, backslash
or slash stores that character itself, and a backslash followed by any
other byte (such as the `u` of a Unicode escape) is a hard failure. -/
theorem C7_string_escapes :
    (∀ acc : List Char, string_loop [] acc = none) ∧
    (∀ (rest acc : List Char), string_loop ('\n' :: rest) acc = none) ∧
    (∀ (rest acc : List Char),
      string_loop ('\\' :: 'n' :: rest) acc = string_loop rest ('\n' :: acc)) ∧
    (∀ (rest acc : List Char),
      string_loop ('\\' :: 'r' :: rest) acc = string_loop rest ('\r' :: acc)) ∧
    (∀ (rest acc : List Char),
      string_loop ('\\' :: 'b' :: rest) acc = string_loop rest ('\x08' :: acc)) ∧
    (∀ (rest acc : List Char),
      string_loop ('\\' :: 'f' :: rest) acc = string_loop rest ('\x0c' :: acc)) ∧
    (∀ (rest acc : List Char),
      string_loop ('\\' :: 't' :: rest) acc = string_loop rest ('\t' :: acc)) ∧
    (∀ (rest acc : List Char) (e : Char), e = '\"' ∨ e = '\\' ∨ e = '/' →
      string_loop ('\\' :: e :: rest) acc = string_loop rest (e :: acc)) ∧
    (∀ (rest acc : List Char) (e : Char),
      e ≠ 'n' → e ≠ 'r' → e ≠ 'b' → e ≠ 'f' → e ≠ 't' →
      e ≠ '\"' → e ≠ '\\' → e ≠ '/' →
      string_loop ('\\' :: e :: rest) acc = none) ∧
    parse_string ("\"\\u0041\"".toList) = none ∧
    parse_string ("\"a\\nb\"".toList) = some (['a', '\n', 'b'], []) := by
  refine ⟨fun acc => rfl, fun rest acc => by cases rest <;> rfl, fun rest acc => rfl,
    fun rest acc => rfl, fun rest acc => rfl, fun rest acc => rfl, fun rest acc => rfl,
    ?_, ?_, by rfl, by rfl⟩
  · intro rest acc e he
    rcases he with rfl | rfl | rfl <;> rfl
  · intro rest acc e h1 h2 h3 h4 h5 h6 h7 h8
    simp [string_loop, h1, h2, h3, h4, h5, h6, h7, h8]

/-- C7 witness: the escape rules applied to the quote escape and to the
unsupported `u` escape. -/
theorem C7_string_escapes_witness :
    string_loop ['\\', '\"', '\"'] [] = some (['\"'], []) ∧
    string_loop ['\\', 'u'] [] = none :=
  ⟨C7_string_escapes.2.2.2.2.2.2.2.1 ['\"'] [] '\"' (Or.inl rfl),
   C7_string_escapes.2.2.2.2.2.2.2.2.1 [] [] 'u' (by decide) (by decide) (by decide)
     (by decide) (by decide) (by decide) (by decide) (by decide)⟩

/-- C8: on any object satisfying the sortedness invariant, `jy_index_s`
returns the stored value of every present key and the `NULL` marker for
every absent key; the parse of an object given in reverse key order stores
the pairs sorted, and both its keys are then found. -/
theorem C8_key_lookup :
    (∀ (ps : JYObject) (key : List Char) (v : JYValue),
      SortedKeys ps → (key, v) ∈ ps → jy_index_s ps key = some v) ∧
    (∀ (ps : JYObject) (key : List Char),
      SortedKeys ps → key ∉ ps.map Prod.fst → jy_index_s ps key = none) ∧
    jy_parse ("\x7b\"b\":0,\"a\":1\x7d".toList) =
      some [(['a'], JYValue.number 1), (['b'], JYValue.number 0)] ∧
    jy_index_s [(['a'], JYValue.number 1), (['b'], JYValue.number 0)] ['a'] =
      some (JYValue.number 1) ∧
    jy_index_s [(['a'], JYValue.number 1), (['b'], JYValue.number 0)] ['b'] =
      some (JYValue.number 0) ∧
    jy_index_s [(['a'], JYValue.number 1), (['b'], JYValue.number 0)] ['c'] = none :=
  ⟨fun _ _ _ hs hv => jy_index_s_mem hs hv,
   fun _ _ _ hm => jy_index_s_not_mem hm,
   by with_unfolding_all rfl, by rfl, by rfl, by rfl⟩

/-- C8 witness: lookup of a present and of an absent key on a concrete
sorted object. -/
theorem C8_key_lookup_witness :
    jy_index_s [(['a'], JYValue.null), (['b'], JYValue.bool true)] ['b'] =
      some (JYValue.bool true) ∧
    jy_index_s [(['a'], JYValue.null), (['b'], JYValue.bool true)] ['z'] = none :=
  ⟨C8_key_lookup.1 [(['a'], JYValue.null), (['b'], JYValue.bool true)] ['b']
      (JYValue.bool true) (by decide) (by simp),
   C8_key_lookup.2.1 [(['a'], JYValue.null), (['b'], JYValue.bool true)] ['z']
      (by decide) (by simp)⟩

/-- C9: each type-narrowing accessor answers true exactly on its own
variant, hands out the payload in that case, and on every other variant
answers false and leaves the out-parameter untouched. -/
theorem C9_accessors :
    (jy_is_null JYValue.null = true ∧ ∀ v : JYValue, v ≠ .null → jy_is_null v = false) ∧
    ((∀ (b : Bool) (out : Bool), jy_is_bool (.bool b) out = (true, b)) ∧
      ∀ (v : JYValue) (out : Bool), (∀ b, v ≠ .bool b) → jy_is_bool v out = (false, out)) ∧
    ((∀ (x : ℚ) (out : ℚ), jy_is_number (.number x) out = (true, x)) ∧
      ∀ (v : JYValue) (out : ℚ), (∀ x, v ≠ .number x) → jy_is_number v out = (false, out)) ∧
    ((∀ (s : List Char) (out : List Char), jy_is_string (.string s) out = (true, s)) ∧
      ∀ (v : JYValue) (out : List Char), (∀ s, v ≠ .string s) →
        jy_is_string v out = (false, out)) ∧
    ((∀ (vs : JYArray) (out : JYArray), jy_is_array (.array vs) out = (true, vs)) ∧
      ∀ (v : JYValue) (out : JYArray), (∀ vs, v ≠ .array vs) →
        jy_is_array v out = (false, out)) ∧
    ((∀ (ps : JYObject) (out : JYObject), jy_is_object (.object ps) out = (true, ps)) ∧
      ∀ (v : JYValue) (out : JYObject), (∀ ps, v ≠ .object ps) →
        jy_is_object v out = (false, out)) := by
  refine ⟨⟨rfl, ?_⟩, ⟨fun b out => rfl, ?_⟩, ⟨fun x out => rfl, ?_⟩,
    ⟨fun s out => rfl, ?_⟩, ⟨fun vs out => rfl, ?_⟩, ⟨fun ps out => rfl, ?_⟩⟩
  · intro v hv
    cases v <;> first | rfl | exact absurd rfl hv
  · intro v out hv
    cases v <;> first | rfl | exact absurd rfl (hv _)
  · intro v out hv
    cases v <;> first | rfl | exact absurd rfl (hv _)
  · intro v out hv
    cases v <;> first | rfl | exact absurd rfl (hv _)
  · intro v out hv
    cases v <;> first | rfl | exact absurd rfl (hv _)
  · intro v out hv
    cases v <;> first | rfl | exact absurd rfl (hv _)

/-- C9 witness: narrowing a boolean value to number fails and keeps the
out-parameter, while narrowing it to boolean hands out the payload. -/
theorem C9_accessors_witness :
    jy_is_number (JYValue.bool true) 7 = (false, 7) ∧
    jy_is_bool (JYValue.bool true) false = (true, true) ∧
    jy_is_null (JYValue.bool true) = false :=
  ⟨C9_accessors.2.2.1.2 (JYValue.bool true) 7 (fun _ h => JYValue.noConfusion h),
   C9_accessors.2.1.1 true false,
   (C9_accessors.1).2 (JYValue.bool true) (fun h => JYValue.noConfusion h)⟩

/-- C10: a trailing comma just before the closing delimiter is accepted:
the array text with a trailing comma parses to the one-element array and
the object text with a trailing comma parses to the one-pair object, each
consuming the whole input. -/
theorem C10_trailing_comma :
    parse_array 16 ("[1,]".toList) = some ([JYValue.number 1], []) ∧
    parse_object 16 ("\x7b\"a\":1,\x7d".toList) = some ([(['a'], JYValue.number 1)], []) ∧
    jy_parse ("\x7b\"a\":1,\x7d".toList) = some [(['a'], JYValue.number 1)] :=
  ⟨by with_unfolding_all rfl, by with_unfolding_all rfl, by with_unfolding_all rfl⟩

end Jayceon
